import Mathlib

/-!
Verification of the SeeGreek pricing core (options_calculator.py) against its
design document. The three Python functions `calculate_option_price`,
`calculate_option_greeks` and `is_itm_atm_otm` are embedded over the real
numbers; the standard normal distribution functions supplied in the source by
scipy are embedded by their mathematical definition: the density
exp (-x ^ 2 / 2) / sqrt (2 * pi) and its cumulative integral.
-/

open MeasureTheory Set

noncomputable section

/-- Standard normal probability density, the contract of the scipy norm.pdf
dependency: exp (-x ^ 2 / 2) / sqrt (2 * pi). -/
def stdNormalPDF (x : ℝ) : ℝ := Real.exp (-x ^ 2 / 2) / Real.sqrt (2 * Real.pi)

/-- Standard normal cumulative distribution function, the contract of the
scipy norm.cdf dependency: the integral of the density over (-inf, x]. -/
def stdNormalCDF (x : ℝ) : ℝ := ∫ t in Iic x, stdNormalPDF t

/-- The d1 intermediate of options_calculator.py (lines 28 and 66). -/
def calc_d1 (spot strike time_to_expiry volatility risk_free_rate dividend_yield : ℝ) : ℝ :=
  (Real.log (spot / strike) +
      (risk_free_rate - dividend_yield + 0.5 * volatility ^ 2) * time_to_expiry) /
    (volatility * Real.sqrt time_to_expiry)

/-- The d2 intermediate of options_calculator.py (lines 29 and 67). -/
def calc_d2 (spot strike time_to_expiry volatility risk_free_rate dividend_yield : ℝ) : ℝ :=
  calc_d1 spot strike time_to_expiry volatility risk_free_rate dividend_yield -
    volatility * Real.sqrt time_to_expiry

/-- Embedding of calculate_option_price from options_calculator.py. -/
def calculate_option_price (option_type : String)
    (spot strike time_to_expiry volatility risk_free_rate dividend_yield : ℝ) : ℝ :=
  if time_to_expiry ≤ 0 then
    if option_type = "call" then max 0 (spot - strike) else max 0 (strike - spot)
  else
    let d1 := calc_d1 spot strike time_to_expiry volatility risk_free_rate dividend_yield
    let d2 := calc_d2 spot strike time_to_expiry volatility risk_free_rate dividend_yield
    if option_type = "call" then
      spot * Real.exp (-dividend_yield * time_to_expiry) * stdNormalCDF d1 -
        strike * Real.exp (-risk_free_rate * time_to_expiry) * stdNormalCDF d2
    else
      strike * Real.exp (-risk_free_rate * time_to_expiry) * stdNormalCDF (-d2) -
        spot * Real.exp (-dividend_yield * time_to_expiry) * stdNormalCDF (-d1)

/-- The five Greeks returned as a dict by calculate_option_greeks. -/
structure Greeks where
  delta : ℝ
  gamma : ℝ
  theta : ℝ
  vega : ℝ
  rho : ℝ

/-- Embedding of calculate_option_greeks from options_calculator.py. -/
def calculate_option_greeks (option_type : String)
    (spot strike time_to_expiry volatility risk_free_rate dividend_yield : ℝ) : Greeks :=
  if time_to_expiry ≤ 0 then ⟨0, 0, 0, 0, 0⟩
  else
    let d1 := calc_d1 spot strike time_to_expiry volatility risk_free_rate dividend_yield
    let d2 := calc_d2 spot strike time_to_expiry volatility risk_free_rate dividend_yield
    let n_d1 := stdNormalPDF d1
    let delta :=
      if option_type = "call" then
        Real.exp (-dividend_yield * time_to_expiry) * stdNormalCDF d1
      else
        Real.exp (-dividend_yield * time_to_expiry) * (stdNormalCDF d1 - 1)
    let gamma :=
      Real.exp (-dividend_yield * time_to_expiry) * n_d1 /
        (spot * volatility * Real.sqrt time_to_expiry)
    let vega :=
      0.01 * spot * Real.exp (-dividend_yield * time_to_expiry) * n_d1 *
        Real.sqrt time_to_expiry
    let theta :=
      (if option_type = "call" then
        -Real.exp (-dividend_yield * time_to_expiry) * spot * n_d1 * volatility /
            (2 * Real.sqrt time_to_expiry) -
          risk_free_rate * strike * Real.exp (-risk_free_rate * time_to_expiry) *
            stdNormalCDF d2 +
          dividend_yield * spot * Real.exp (-dividend_yield * time_to_expiry) *
            stdNormalCDF d1
      else
        -Real.exp (-dividend_yield * time_to_expiry) * spot * n_d1 * volatility /
            (2 * Real.sqrt time_to_expiry) +
          risk_free_rate * strike * Real.exp (-risk_free_rate * time_to_expiry) *
            stdNormalCDF (-d2) -
          dividend_yield * spot * Real.exp (-dividend_yield * time_to_expiry) *
            stdNormalCDF (-d1)) / 365
    let rho :=
      if option_type = "call" then
        0.01 * strike * time_to_expiry * Real.exp (-risk_free_rate * time_to_expiry) *
          stdNormalCDF d2
      else
        -0.01 * strike * time_to_expiry * Real.exp (-risk_free_rate * time_to_expiry) *
          stdNormalCDF (-d2)
    ⟨delta, gamma, theta, vega, rho⟩

/-- Embedding of is_itm_atm_otm from options_calculator.py. -/
def is_itm_atm_otm (option_type : String) (spot strike threshold : ℝ) : String :=
  let pct_diff := |spot - strike| / strike
  if pct_diff ≤ threshold then "ATM"
  else if option_type = "call" then
    if spot > strike then "ITM" else "OTM"
  else
    if spot < strike then "ITM" else "OTM"

/-- Formula from the spec: d1 as written in section 4.1. -/
def bsm_d1 (spot strike T sigma r q : ℝ) : ℝ :=
  (Real.log (spot / strike) + (r - q + 0.5 * sigma ^ 2) * T) / (sigma * Real.sqrt T)

/-- Formula from the spec: d2 = d1 - sigma * sqrt T. -/
def bsm_d2 (spot strike T sigma r q : ℝ) : ℝ :=
  bsm_d1 spot strike T sigma r q - sigma * Real.sqrt T

/-- Formula from the spec: the Black-Scholes-Merton call value. -/
def bsmCallPrice (spot strike T sigma r q : ℝ) : ℝ :=
  spot * Real.exp (-(q * T)) * stdNormalCDF (bsm_d1 spot strike T sigma r q) -
    strike * Real.exp (-(r * T)) * stdNormalCDF (bsm_d2 spot strike T sigma r q)

/-- Formula from the spec: the Black-Scholes-Merton put value. -/
def bsmPutPrice (spot strike T sigma r q : ℝ) : ℝ :=
  strike * Real.exp (-(r * T)) * stdNormalCDF (-(bsm_d2 spot strike T sigma r q)) -
    spot * Real.exp (-(q * T)) * stdNormalCDF (-(bsm_d1 spot strike T sigma r q))

end

/-- C1: for both recognized option types and positive strike, spot,
time to expiry and volatility, calculate_option_price returns exactly the
Black-Scholes-Merton value written in the spec. -/
theorem calculate_option_price_eq_bsm (spot strike T sigma r q : ℝ)
    (hS : 0 < spot) (hK : 0 < strike) (hT : 0 < T) (hsig : 0 < sigma) :
    calculate_option_price "call" spot strike T sigma r q =
        bsmCallPrice spot strike T sigma r q ∧
      calculate_option_price "put" spot strike T sigma r q =
        bsmPutPrice spot strike T sigma r q := by
  constructor <;>
    simp [calculate_option_price, bsmCallPrice, bsmPutPrice, bsm_d1, bsm_d2,
      calc_d1, calc_d2, hT.not_le, neg_mul]

/-- Witness for C1 at spot = 1, strike = 1, T = 1, sigma = 1, r = 0, q = 0. -/
theorem calculate_option_price_eq_bsm_witness :
    calculate_option_price "call" 1 1 1 1 0 0 = bsmCallPrice 1 1 1 1 0 0 ∧
      calculate_option_price "put" 1 1 1 1 0 0 = bsmPutPrice 1 1 1 1 0 0 :=
  calculate_option_price_eq_bsm 1 1 1 1 0 0 one_pos one_pos one_pos one_pos

/-- C3: when time_to_expiry is nonpositive, the price is the intrinsic value
(max 0 (spot - strike) for the call branch, max 0 (strike - spot) otherwise)
and every Greek is exactly zero, for every option_type string and every value
of the remaining numeric arguments. -/
theorem expired_option_intrinsic_and_zero_greeks (option_type : String)
    (spot strike T sigma r q : ℝ) (hT : T ≤ 0) :
    calculate_option_price option_type spot strike T sigma r q =
        (if option_type = "call" then max 0 (spot - strike) else max 0 (strike - spot)) ∧
      calculate_option_greeks option_type spot strike T sigma r q = ⟨0, 0, 0, 0, 0⟩ := by
  constructor <;> simp [calculate_option_price, calculate_option_greeks, hT]

/-- Witness for C3 with an unrecognized option_type at T = 0. -/
theorem expired_option_intrinsic_and_zero_greeks_witness :
    calculate_option_price "straddle" 3 5 0 1 1 1 =
        (if "straddle" = "call" then max 0 (3 - 5 : ℝ) else max 0 ((5 : ℝ) - 3)) ∧
      calculate_option_greeks "straddle" 3 5 0 1 1 1 = ⟨0, 0, 0, 0, 0⟩ :=
  expired_option_intrinsic_and_zero_greeks "straddle" 3 5 0 1 1 1 le_rfl

/-- C9: any option_type string other than the literal "call" takes the put
branch of both calculate_option_price and calculate_option_greeks; no failure
path exists. -/
theorem unrecognized_option_type_is_put (option_type : String) (h : option_type ≠ "call")
    (spot strike T sigma r q : ℝ) :
    calculate_option_price option_type spot strike T sigma r q =
        calculate_option_price "put" spot strike T sigma r q ∧
      calculate_option_greeks option_type spot strike T sigma r q =
        calculate_option_greeks "put" spot strike T sigma r q := by
  constructor <;> simp [calculate_option_price, calculate_option_greeks, h]

/-- Witness for C9 with the misspelled type "cal" on concrete inputs. -/
theorem unrecognized_option_type_is_put_witness :
    calculate_option_price "cal" 100 90 1 1 0 0 =
        calculate_option_price "put" 100 90 1 1 0 0 ∧
      calculate_option_greeks "cal" 100 90 1 1 0 0 =
        calculate_option_greeks "put" 100 90 1 1 0 0 :=
  unrecognized_option_type_is_put "cal" (by decide) 100 90 1 1 0 0

/-- C8: with a nonzero strike, the classifier returns ATM exactly on the
relative-difference threshold test for every option_type; outside it, the call
branch tests spot > strike and the put branch tests spot < strike. -/
theorem is_itm_atm_otm_spec (spot strike threshold : ℝ) (hK : strike ≠ 0) :
    (∀ option_type : String, |spot - strike| / strike ≤ threshold →
        is_itm_atm_otm option_type spot strike threshold = "ATM") ∧
      (¬ |spot - strike| / strike ≤ threshold →
        is_itm_atm_otm "call" spot strike threshold =
            (if spot > strike then "ITM" else "OTM") ∧
          is_itm_atm_otm "put" spot strike threshold =
            (if spot < strike then "ITM" else "OTM")) := by
  refine ⟨fun option_type hle => ?_, fun hgt => ⟨?_, ?_⟩⟩ <;>
    simp [is_itm_atm_otm, *]

/-- Witness for C8: an ATM instance at spot = 1, strike = 1, threshold = 0.5
and the call and put instances at spot = 2, strike = 1, threshold = 0.1. -/
theorem is_itm_atm_otm_spec_witness :
    is_itm_atm_otm "put" 1 1 0.5 = "ATM" ∧
      is_itm_atm_otm "call" 2 1 0.1 = (if (2 : ℝ) > 1 then "ITM" else "OTM") ∧
      is_itm_atm_otm "put" 2 1 0.1 = (if (2 : ℝ) < 1 then "ITM" else "OTM") :=
  ⟨(is_itm_atm_otm_spec 1 1 0.5 one_ne_zero).1 "put" (by norm_num),
    ((is_itm_atm_otm_spec 2 1 0.1 one_ne_zero).2 (by norm_num)).1,
    ((is_itm_atm_otm_spec 2 1 0.1 one_ne_zero).2 (by norm_num)).2⟩

/-- C10: with positive strike and nonnegative threshold, the call and put
classifications of the same inputs are either both ATM, or one is ITM and the
other OTM. -/
theorem is_itm_atm_otm_duality (spot strike threshold : ℝ)
    (hK : 0 < strike) (hth : 0 ≤ threshold) :
    (is_itm_atm_otm "call" spot strike threshold = "ATM" ∧
        is_itm_atm_otm "put" spot strike threshold = "ATM") ∨
      (is_itm_atm_otm "call" spot strike threshold = "ITM" ∧
        is_itm_atm_otm "put" spot strike threshold = "OTM") ∨
      (is_itm_atm_otm "call" spot strike threshold = "OTM" ∧
        is_itm_atm_otm "put" spot strike threshold = "ITM") := by
  by_cases hatm : |spot - strike| / strike ≤ threshold
  · exact Or.inl (by simp [is_itm_atm_otm, hatm])
  · have hne : spot ≠ strike := by
      intro h
      exact hatm (by simp [h, hth])
    rcases lt_or_gt_of_ne hne with hlt | hgt
    · exact Or.inr (Or.inr (by simp [is_itm_atm_otm, hatm, hlt, not_lt.mpr hlt.le]))
    · exact Or.inr (Or.inl (by simp [is_itm_atm_otm, hatm, hgt, not_lt.mpr hgt.le]))

/-- Witness for C10 at spot = 3, strike = 2, threshold = 0.1. -/
theorem is_itm_atm_otm_duality_witness :
    (is_itm_atm_otm "call" 3 2 0.1 = "ATM" ∧ is_itm_atm_otm "put" 3 2 0.1 = "ATM") ∨
      (is_itm_atm_otm "call" 3 2 0.1 = "ITM" ∧ is_itm_atm_otm "put" 3 2 0.1 = "OTM") ∨
      (is_itm_atm_otm "call" 3 2 0.1 = "OTM" ∧ is_itm_atm_otm "put" 3 2 0.1 = "ITM") :=
  is_itm_atm_otm_duality 3 2 0.1 two_pos (by norm_num)

/-! Analytic facts about the standard normal density and its cumulative
integral, needed for the behavioral claims about prices and Greeks. -/

theorem stdNormalPDF_nonneg (x : ℝ) : 0 ≤ stdNormalPDF x :=
  div_nonneg (Real.exp_pos _).le (Real.sqrt_nonneg _)

theorem stdNormalPDF_even (x : ℝ) : stdNormalPDF (-x) = stdNormalPDF x := by
  unfold stdNormalPDF
  rw [neg_sq]

theorem continuous_stdNormalPDF : Continuous stdNormalPDF := by
  unfold stdNormalPDF
  fun_prop

theorem stdNormalPDF_eq :
    stdNormalPDF = fun x => Real.exp (-(1 / 2 : ℝ) * x ^ 2) / Real.sqrt (2 * Real.pi) := by
  funext x
  unfold stdNormalPDF
  rw [show -x ^ 2 / 2 = -(1 / 2 : ℝ) * x ^ 2 by ring]

theorem integrable_stdNormalPDF : Integrable stdNormalPDF := by
  rw [stdNormalPDF_eq]
  exact (integrable_exp_neg_mul_sq (by norm_num)).div_const _

theorem integral_stdNormalPDF : ∫ x, stdNormalPDF x = 1 := by
  rw [stdNormalPDF_eq, integral_div, integral_gaussian,
    show Real.pi / (1 / 2 : ℝ) = 2 * Real.pi by ring]
  exact div_self (ne_of_gt (Real.sqrt_pos.mpr (by positivity)))

theorem stdNormalCDF_nonneg (x : ℝ) : 0 ≤ stdNormalCDF x :=
  setIntegral_nonneg measurableSet_Iic fun t _ => stdNormalPDF_nonneg t

theorem stdNormalCDF_add_Ioi (x : ℝ) :
    stdNormalCDF x + ∫ t in Ioi x, stdNormalPDF t = 1 := by
  rw [stdNormalCDF, intervalIntegral.integral_Iic_add_Ioi integrable_stdNormalPDF.integrableOn
    integrable_stdNormalPDF.integrableOn, integral_stdNormalPDF]

theorem stdNormalCDF_le_one (x : ℝ) : stdNormalCDF x ≤ 1 := by
  have h := stdNormalCDF_add_Ioi x
  have h2 : 0 ≤ ∫ t in Ioi x, stdNormalPDF t :=
    setIntegral_nonneg measurableSet_Ioi fun t _ => stdNormalPDF_nonneg t
  linarith

theorem stdNormalCDF_neg (x : ℝ) : stdNormalCDF (-x) = 1 - stdNormalCDF x := by
  have h1 : stdNormalCDF (-x) = ∫ t in Ioi x, stdNormalPDF t := by
    rw [stdNormalCDF]
    calc ∫ t in Iic (-x), stdNormalPDF t
        = ∫ t in Iic (-x), stdNormalPDF (-t) :=
          setIntegral_congr_fun measurableSet_Iic fun t _ => (stdNormalPDF_even t).symm
      _ = ∫ t in Ioi (-(-x)), stdNormalPDF t := integral_comp_neg_Iic (-x) stdNormalPDF
      _ = ∫ t in Ioi x, stdNormalPDF t := by rw [neg_neg]
  have h2 := stdNormalCDF_add_Ioi x
  linarith

theorem integral_Iic_comp_add (f : ℝ → ℝ) (x s : ℝ) :
    ∫ t in Iic x, f (t + s) = ∫ t in Iic (x + s), f t := by
  have h2 : ∀ t : ℝ, (Iic (x + s)).indicator f (t + s) =
      (Iic x).indicator (fun u => f (u + s)) t := by
    intro t
    by_cases ht : t ≤ x
    · rw [Set.indicator_of_mem (mem_Iic.mpr (add_le_add_right ht s)),
        Set.indicator_of_mem (mem_Iic.mpr ht)]
    · rw [Set.indicator_of_not_mem (fun hm => ht (le_of_add_le_add_right (mem_Iic.mp hm))),
        Set.indicator_of_not_mem (fun hm => ht (mem_Iic.mp hm))]
  calc ∫ t in Iic x, f (t + s)
      = ∫ t, (Iic x).indicator (fun u => f (u + s)) t :=
        (integral_indicator measurableSet_Iic).symm
    _ = ∫ t, (Iic (x + s)).indicator f (t + s) := by simp_rw [h2]
    _ = ∫ t, (Iic (x + s)).indicator f t := integral_add_right_eq_self _ s
    _ = ∫ t in Iic (x + s), f t := integral_indicator measurableSet_Iic

theorem stdNormalPDF_shift (t s : ℝ) :
    stdNormalPDF (t + s) = stdNormalPDF t * Real.exp (-(t * s) - s ^ 2 / 2) := by
  unfold stdNormalPDF
  rw [show -(t + s) ^ 2 / 2 = -t ^ 2 / 2 + (-(t * s) - s ^ 2 / 2) by ring, Real.exp_add]
  ring

theorem mul_stdNormalCDF_le_shift (B x s : ℝ) (hB : 0 ≤ B) (hs : 0 ≤ s) :
    B * stdNormalCDF x ≤ B * Real.exp (s * x + s ^ 2 / 2) * stdNormalCDF (x + s) := by
  have hint : Integrable fun t : ℝ => stdNormalPDF (t + s) :=
    integrable_stdNormalPDF.comp_add_right s
  have h1 : stdNormalCDF (x + s) = ∫ t in Iic x, stdNormalPDF (t + s) :=
    (integral_Iic_comp_add stdNormalPDF x s).symm
  rw [stdNormalCDF, h1, ← integral_mul_left, ← integral_mul_left]
  apply setIntegral_mono_on
  · exact (integrable_stdNormalPDF.const_mul B).integrableOn
  · exact (hint.const_mul _).integrableOn
  · exact measurableSet_Iic
  · intro t ht
    rw [stdNormalPDF_shift]
    have hexp : Real.exp (s * x + s ^ 2 / 2) * Real.exp (-(t * s) - s ^ 2 / 2) =
        Real.exp (s * (x - t)) := by
      rw [← Real.exp_add]
      congr 1
      ring
    calc B * stdNormalPDF t = B * stdNormalPDF t * 1 := (mul_one _).symm
      _ ≤ B * stdNormalPDF t * Real.exp (s * (x - t)) := by
          apply mul_le_mul_of_nonneg_left
            (Real.one_le_exp (mul_nonneg hs (sub_nonneg.mpr (mem_Iic.mp ht))))
            (mul_nonneg hB (stdNormalPDF_nonneg t))
      _ = B * Real.exp (s * x + s ^ 2 / 2) * (stdNormalPDF t * Real.exp (-(t * s) - s ^ 2 / 2)) := by
          rw [← hexp]
          ring

theorem hasDerivAt_stdNormalCDF (x : ℝ) : HasDerivAt stdNormalCDF (stdNormalPDF x) x := by
  have hΦ : ∀ u : ℝ, stdNormalCDF u = stdNormalCDF 0 + ∫ t in (0 : ℝ)..u, stdNormalPDF t := by
    intro u
    have h0 : (∫ t in Iic u, stdNormalPDF t) - ∫ t in Iic (0 : ℝ), stdNormalPDF t =
        ∫ t in (0 : ℝ)..u, stdNormalPDF t :=
      intervalIntegral.integral_Iic_sub_Iic integrable_stdNormalPDF.integrableOn
        integrable_stdNormalPDF.integrableOn
    rw [stdNormalCDF, stdNormalCDF, ← h0]
    ring
  have hd : HasDerivAt (fun u => stdNormalCDF 0 + ∫ t in (0 : ℝ)..u, stdNormalPDF t)
      (stdNormalPDF x) x := by
    apply HasDerivAt.const_add
    exact intervalIntegral.integral_hasDerivAt_right
      integrable_stdNormalPDF.intervalIntegrable
      continuous_stdNormalPDF.aestronglyMeasurable.stronglyMeasurableAtFilter
      continuous_stdNormalPDF.continuousAt
  rw [funext hΦ]
  exact hd

/-! Algebraic identities about d1 and d2 that drive parity, positivity and
monotonicity of the Black-Scholes-Merton price. -/

theorem sd1_identity (spot strike T sigma r q : ℝ) (hT : 0 < T) (hsig : 0 < sigma) :
    sigma * Real.sqrt T * calc_d1 spot strike T sigma r q -
        (sigma * Real.sqrt T) ^ 2 / 2 =
      Real.log (spot / strike) + (r - q) * T := by
  have hu : Real.sqrt T ^ 2 = T := Real.sq_sqrt hT.le
  have hne : sigma * Real.sqrt T ≠ 0 := by positivity
  have hcancel : sigma * Real.sqrt T * calc_d1 spot strike T sigma r q =
      Real.log (spot / strike) + (r - q + 0.5 * sigma ^ 2) * T := by
    rw [calc_d1]
    field_simp
  rw [hcancel, mul_pow, hu]
  ring

theorem exp_factor_call (spot strike T sigma r q : ℝ)
    (hS : 0 < spot) (hK : 0 < strike) (hT : 0 < T) (hsig : 0 < sigma) :
    strike * Real.exp (-r * T) *
        Real.exp (sigma * Real.sqrt T * calc_d2 spot strike T sigma r q +
          (sigma * Real.sqrt T) ^ 2 / 2) =
      spot * Real.exp (-q * T) := by
  have h1 : sigma * Real.sqrt T * calc_d2 spot strike T sigma r q +
      (sigma * Real.sqrt T) ^ 2 / 2 = Real.log (spot / strike) + (r - q) * T := by
    have h := sd1_identity spot strike T sigma r q hT hsig
    rw [calc_d2]
    linear_combination h
  have h2 : Real.exp (Real.log (spot / strike) + (r - q) * T) =
      spot / strike * (Real.exp (r * T) * Real.exp (-q * T)) := by
    rw [show Real.log (spot / strike) + (r - q) * T =
        Real.log (spot / strike) + (r * T + -q * T) by ring,
      Real.exp_add, Real.exp_add, Real.exp_log (div_pos hS hK)]
  have h3 : Real.exp (-r * T) * Real.exp (r * T) = 1 := by
    rw [← Real.exp_add, show -r * T + r * T = 0 by ring, Real.exp_zero]
  have h4 : strike * (spot / strike) = spot := by
    field_simp
  rw [h1, h2]
  calc strike * Real.exp (-r * T) * (spot / strike * (Real.exp (r * T) * Real.exp (-q * T)))
      = strike * (spot / strike) * (Real.exp (-r * T) * Real.exp (r * T)) *
          Real.exp (-q * T) := by ring
    _ = spot * Real.exp (-q * T) := by rw [h3, h4, mul_one]

theorem exp_factor_put (spot strike T sigma r q : ℝ)
    (hS : 0 < spot) (hK : 0 < strike) (hT : 0 < T) (hsig : 0 < sigma) :
    spot * Real.exp (-q * T) *
        Real.exp (sigma * Real.sqrt T * -calc_d1 spot strike T sigma r q +
          (sigma * Real.sqrt T) ^ 2 / 2) =
      strike * Real.exp (-r * T) := by
  have h1 : sigma * Real.sqrt T * -calc_d1 spot strike T sigma r q +
      (sigma * Real.sqrt T) ^ 2 / 2 = Real.log (strike / spot) + (q - r) * T := by
    have h := sd1_identity spot strike T sigma r q hT hsig
    have hlog : Real.log (strike / spot) = -Real.log (spot / strike) := by
      rw [← Real.log_inv, inv_div]
    rw [hlog]
    linear_combination -h
  have h2 : Real.exp (Real.log (strike / spot) + (q - r) * T) =
      strike / spot * (Real.exp (q * T) * Real.exp (-r * T)) := by
    rw [show Real.log (strike / spot) + (q - r) * T =
        Real.log (strike / spot) + (q * T + -r * T) by ring,
      Real.exp_add, Real.exp_add, Real.exp_log (div_pos hK hS)]
  have h3 : Real.exp (-q * T) * Real.exp (q * T) = 1 := by
    rw [← Real.exp_add, show -q * T + q * T = 0 by ring, Real.exp_zero]
  have h4 : spot * (strike / spot) = strike := by
    field_simp
  rw [h1, h2]
  calc spot * Real.exp (-q * T) * (strike / spot * (Real.exp (q * T) * Real.exp (-r * T)))
      = spot * (strike / spot) * (Real.exp (-q * T) * Real.exp (q * T)) *
          Real.exp (-r * T) := by ring
    _ = strike * Real.exp (-r * T) := by rw [h3, h4, mul_one]

theorem pdf_factor (spot strike T sigma r q : ℝ)
    (hS : 0 < spot) (hK : 0 < strike) (hT : 0 < T) (hsig : 0 < sigma) :
    spot * Real.exp (-q * T) * stdNormalPDF (calc_d1 spot strike T sigma r q) =
      strike * Real.exp (-r * T) * stdNormalPDF (calc_d2 spot strike T sigma r q) := by
  have hd2 : calc_d2 spot strike T sigma r q =
      calc_d1 spot strike T sigma r q + -(sigma * Real.sqrt T) := by
    rw [calc_d2]
    ring
  have harg : -(calc_d1 spot strike T sigma r q * -(sigma * Real.sqrt T)) -
      (-(sigma * Real.sqrt T)) ^ 2 / 2 =
      sigma * Real.sqrt T * calc_d2 spot strike T sigma r q +
        (sigma * Real.sqrt T) ^ 2 / 2 := by
    rw [calc_d2]
    ring
  rw [hd2, stdNormalPDF_shift, harg,
    ← exp_factor_call spot strike T sigma r q hS hK hT hsig]
  ring

/-- C2: put-call parity holds exactly over the real-valued embedding: on the
same positive inputs, the call price minus the put price equals the forward
value spot * exp (-(q * T)) - strike * exp (-(r * T)). -/
theorem put_call_parity (spot strike T sigma r q : ℝ)
    (hS : 0 < spot) (hK : 0 < strike) (hT : 0 < T) (hsig : 0 < sigma) :
    calculate_option_price "call" spot strike T sigma r q -
        calculate_option_price "put" spot strike T sigma r q =
      spot * Real.exp (-(q * T)) - strike * Real.exp (-(r * T)) := by
  have hput : (("put" : String) = "call") = False := eq_false (by decide)
  simp only [calculate_option_price, hT.not_le, hput, if_false, ite_false, reduceIte,
    stdNormalCDF_neg, neg_mul]
  ring

/-- Witness for C2 at spot = 1, strike = 1, T = 1, sigma = 1, r = 0, q = 0. -/
theorem put_call_parity_witness :
    calculate_option_price "call" 1 1 1 1 0 0 - calculate_option_price "put" 1 1 1 1 0 0 =
      1 * Real.exp (-(0 * 1)) - 1 * Real.exp (-(0 * 1)) :=
  put_call_parity 1 1 1 1 0 0 one_pos one_pos one_pos one_pos

/-- C5: with positive inputs and nonnegative dividend yield, the call delta
lies in [0, exp (-(q * T))] and the put delta lies in [-exp (-(q * T)), 0]. -/
theorem delta_bounds (spot strike T sigma r q : ℝ)
    (hS : 0 < spot) (hK : 0 < strike) (hT : 0 < T) (hsig : 0 < sigma) (hq : 0 ≤ q) :
    (0 ≤ (calculate_option_greeks "call" spot strike T sigma r q).delta ∧
        (calculate_option_greeks "call" spot strike T sigma r q).delta ≤
          Real.exp (-(q * T))) ∧
      (-Real.exp (-(q * T)) ≤ (calculate_option_greeks "put" spot strike T sigma r q).delta ∧
        (calculate_option_greeks "put" spot strike T sigma r q).delta ≤ 0) := by
  have h1 : (calculate_option_greeks "call" spot strike T sigma r q).delta =
      Real.exp (-(q * T)) * stdNormalCDF (calc_d1 spot strike T sigma r q) := by
    simp [calculate_option_greeks, hT.not_le, neg_mul]
  have h2 : (calculate_option_greeks "put" spot strike T sigma r q).delta =
      Real.exp (-(q * T)) * (stdNormalCDF (calc_d1 spot strike T sigma r q) - 1) := by
    simp [calculate_option_greeks, hT.not_le, neg_mul]
  have hE := (Real.exp_pos (-(q * T))).le
  have h0 := stdNormalCDF_nonneg (calc_d1 spot strike T sigma r q)
  have hle := stdNormalCDF_le_one (calc_d1 spot strike T sigma r q)
  rw [h1, h2]
  refine ⟨⟨mul_nonneg hE h0, mul_le_of_le_one_right hE hle⟩, ?_, ?_⟩
  · nlinarith [mul_nonneg hE h0]
  · nlinarith [mul_nonneg hE (sub_nonneg.mpr hle)]

/-- Witness for C5 at spot = 1, strike = 1, T = 1, sigma = 1, r = 0, q = 0. -/
theorem delta_bounds_witness :
    (0 ≤ (calculate_option_greeks "call" 1 1 1 1 0 0).delta ∧
        (calculate_option_greeks "call" 1 1 1 1 0 0).delta ≤ Real.exp (-(0 * 1))) ∧
      (-Real.exp (-(0 * 1)) ≤ (calculate_option_greeks "put" 1 1 1 1 0 0).delta ∧
        (calculate_option_greeks "put" 1 1 1 1 0 0).delta ≤ 0) :=
  delta_bounds 1 1 1 1 0 0 one_pos one_pos one_pos one_pos le_rfl

/-- C6: with positive inputs, gamma is nonnegative and identical for the call
and put branches. -/
theorem gamma_nonneg_and_shared (spot strike T sigma r q : ℝ)
    (hS : 0 < spot) (hK : 0 < strike) (hT : 0 < T) (hsig : 0 < sigma) (hq : 0 ≤ q) :
    0 ≤ (calculate_option_greeks "call" spot strike T sigma r q).gamma ∧
      (calculate_option_greeks "call" spot strike T sigma r q).gamma =
        (calculate_option_greeks "put" spot strike T sigma r q).gamma := by
  have h1 : (calculate_option_greeks "call" spot strike T sigma r q).gamma =
      Real.exp (-(q * T)) * stdNormalPDF (calc_d1 spot strike T sigma r q) /
        (spot * sigma * Real.sqrt T) := by
    simp [calculate_option_greeks, hT.not_le, neg_mul]
  have h2 : (calculate_option_greeks "put" spot strike T sigma r q).gamma =
      Real.exp (-(q * T)) * stdNormalPDF (calc_d1 spot strike T sigma r q) /
        (spot * sigma * Real.sqrt T) := by
    simp [calculate_option_greeks, hT.not_le, neg_mul]
  refine ⟨?_, h1.trans h2.symm⟩
  rw [h1]
  exact div_nonneg (mul_nonneg (Real.exp_pos _).le (stdNormalPDF_nonneg _)) (by positivity)

/-- Witness for C6 at spot = 1, strike = 1, T = 1, sigma = 1, r = 0, q = 0. -/
theorem gamma_nonneg_and_shared_witness :
    0 ≤ (calculate_option_greeks "call" 1 1 1 1 0 0).gamma ∧
      (calculate_option_greeks "call" 1 1 1 1 0 0).gamma =
        (calculate_option_greeks "put" 1 1 1 1 0 0).gamma :=
  gamma_nonneg_and_shared 1 1 1 1 0 0 one_pos one_pos one_pos one_pos le_rfl

/-- C4: for every option_type string, a positive spot and strike, and positive
volatility whenever time to expiry is positive, the returned price is
nonnegative. -/
theorem price_nonneg (option_type : String) (spot strike T sigma r q : ℝ)
    (hS : 0 < spot) (hK : 0 < strike) (hsig : 0 < T → 0 < sigma) :
    0 ≤ calculate_option_price option_type spot strike T sigma r q := by
  by_cases hT : T ≤ 0
  · simp only [calculate_option_price, if_pos hT]
    split <;> exact le_max_left _ _
  · push_neg at hT
    have hsg := hsig hT
    have hs : 0 ≤ sigma * Real.sqrt T := by positivity
    by_cases hot : option_type = "call"
    · simp only [calculate_option_price, if_neg (not_le.mpr hT), if_pos hot]
      rw [sub_nonneg]
      have key := mul_stdNormalCDF_le_shift (strike * Real.exp (-r * T))
        (calc_d2 spot strike T sigma r q) (sigma * Real.sqrt T) (by positivity) hs
      rw [exp_factor_call spot strike T sigma r q hS hK hT hsg] at key
      have hsum : calc_d2 spot strike T sigma r q + sigma * Real.sqrt T =
          calc_d1 spot strike T sigma r q := by
        rw [calc_d2]
        ring
      rw [hsum] at key
      exact key
    · simp only [calculate_option_price, if_neg (not_le.mpr hT), if_neg hot]
      rw [sub_nonneg]
      have key := mul_stdNormalCDF_le_shift (spot * Real.exp (-q * T))
        (-calc_d1 spot strike T sigma r q) (sigma * Real.sqrt T) (by positivity) hs
      rw [exp_factor_put spot strike T sigma r q hS hK hT hsg] at key
      have hsum : -calc_d1 spot strike T sigma r q + sigma * Real.sqrt T =
          -calc_d2 spot strike T sigma r q := by
        rw [calc_d2]
        ring
      rw [hsum] at key
      exact key

/-- Witness for C4 for the call branch at spot = 1, strike = 1, T = 1,
sigma = 1, r = 0, q = 0. -/
theorem price_nonneg_witness :
    0 ≤ calculate_option_price "call" 1 1 1 1 0 0 :=
  price_nonneg "call" 1 1 1 1 0 0 one_pos one_pos fun _ => one_pos

theorem hasDerivAt_calc_d1 (strike T sigma r q x : ℝ) (hK : 0 < strike) (hT : 0 < T)
    (hsig : 0 < sigma) (hx : 0 < x) :
    HasDerivAt (fun y => calc_d1 y strike T sigma r q)
      (1 / (x * (sigma * Real.sqrt T))) x := by
  have hne : x / strike ≠ 0 := (div_pos hx hK).ne'
  have hlog : HasDerivAt (fun y : ℝ => Real.log (y / strike)) (1 / strike / (x / strike)) x :=
    ((hasDerivAt_id x).div_const strike).log hne
  have h2 : HasDerivAt (fun y : ℝ => (Real.log (y / strike) +
      (r - q + 0.5 * sigma ^ 2) * T) / (sigma * Real.sqrt T))
      (1 / strike / (x / strike) / (sigma * Real.sqrt T)) x :=
    (hlog.add_const _).div_const _
  have hval : 1 / strike / (x / strike) / (sigma * Real.sqrt T) =
      1 / (x * (sigma * Real.sqrt T)) := by
    have hsq : Real.sqrt T ≠ 0 := by positivity
    field_simp
  rw [hval] at h2
  simp only [calc_d1]
  exact h2

theorem hasDerivAt_call_price (strike T sigma r q x : ℝ) (hK : 0 < strike) (hT : 0 < T)
    (hsig : 0 < sigma) (hx : 0 < x) :
    HasDerivAt (fun y => calculate_option_price "call" y strike T sigma r q)
      (Real.exp (-q * T) * stdNormalCDF (calc_d1 x strike T sigma r q)) x := by
  have hD := hasDerivAt_calc_d1 strike T sigma r q x hK hT hsig hx
  have hΦ1 : HasDerivAt (fun y => stdNormalCDF (calc_d1 y strike T sigma r q))
      (stdNormalPDF (calc_d1 x strike T sigma r q) * (1 / (x * (sigma * Real.sqrt T)))) x := by
    have h := HasDerivAt.comp_of_eq x (hasDerivAt_stdNormalCDF (calc_d1 x strike T sigma r q)) hD rfl
    exact h
  have hd2 : HasDerivAt (fun y => calc_d2 y strike T sigma r q)
      (1 / (x * (sigma * Real.sqrt T))) x := by
    simp only [calc_d2]
    exact hD.sub_const (sigma * Real.sqrt T)
  have hΦ2 : HasDerivAt (fun y => stdNormalCDF (calc_d2 y strike T sigma r q))
      (stdNormalPDF (calc_d2 x strike T sigma r q) * (1 / (x * (sigma * Real.sqrt T)))) x := by
    have h := HasDerivAt.comp_of_eq x (hasDerivAt_stdNormalCDF (calc_d2 x strike T sigma r q)) hd2 rfl
    exact h
  have hterm1 : HasDerivAt
      (fun y => y * Real.exp (-q * T) * stdNormalCDF (calc_d1 y strike T sigma r q))
      (1 * Real.exp (-q * T) * stdNormalCDF (calc_d1 x strike T sigma r q) +
        x * Real.exp (-q * T) * (stdNormalPDF (calc_d1 x strike T sigma r q) *
          (1 / (x * (sigma * Real.sqrt T))))) x :=
    ((hasDerivAt_id x).mul_const (Real.exp (-q * T))).mul hΦ1
  have hterm2 : HasDerivAt
      (fun y => strike * Real.exp (-r * T) * stdNormalCDF (calc_d2 y strike T sigma r q))
      (strike * Real.exp (-r * T) * (stdNormalPDF (calc_d2 x strike T sigma r q) *
        (1 / (x * (sigma * Real.sqrt T))))) x :=
    hΦ2.const_mul (strike * Real.exp (-r * T))
  have hsub := hterm1.sub hterm2
  have hpd := pdf_factor x strike T sigma r q hx hK hT hsig
  have hval : 1 * Real.exp (-q * T) * stdNormalCDF (calc_d1 x strike T sigma r q) +
      x * Real.exp (-q * T) * (stdNormalPDF (calc_d1 x strike T sigma r q) *
        (1 / (x * (sigma * Real.sqrt T)))) -
      strike * Real.exp (-r * T) * (stdNormalPDF (calc_d2 x strike T sigma r q) *
        (1 / (x * (sigma * Real.sqrt T)))) =
      Real.exp (-q * T) * stdNormalCDF (calc_d1 x strike T sigma r q) := by
    linear_combination (1 / (x * (sigma * Real.sqrt T))) * hpd
  rw [hval] at hsub
  have hfeq : (fun y => calculate_option_price "call" y strike T sigma r q) =
      fun y => y * Real.exp (-q * T) * stdNormalCDF (calc_d1 y strike T sigma r q) -
        strike * Real.exp (-r * T) * stdNormalCDF (calc_d2 y strike T sigma r q) := by
    funext y
    simp [calculate_option_price, hT.not_le]
  rw [hfeq]
  exact hsub

theorem hasDerivAt_put_price (strike T sigma r q x : ℝ) (hK : 0 < strike) (hT : 0 < T)
    (hsig : 0 < sigma) (hx : 0 < x) :
    HasDerivAt (fun y => calculate_option_price "put" y strike T sigma r q)
      (-(Real.exp (-q * T) * stdNormalCDF (-calc_d1 x strike T sigma r q))) x := by
  have hD := hasDerivAt_calc_d1 strike T sigma r q x hK hT hsig hx
  have hd2 : HasDerivAt (fun y => calc_d2 y strike T sigma r q)
      (1 / (x * (sigma * Real.sqrt T))) x := by
    simp only [calc_d2]
    exact hD.sub_const (sigma * Real.sqrt T)
  have hΦn1 : HasDerivAt (fun y => stdNormalCDF (-calc_d1 y strike T sigma r q))
      (stdNormalPDF (-calc_d1 x strike T sigma r q) * -(1 / (x * (sigma * Real.sqrt T)))) x := by
    have h := HasDerivAt.comp_of_eq x (hasDerivAt_stdNormalCDF (-calc_d1 x strike T sigma r q)) hD.neg rfl
    exact h
  have hΦn2 : HasDerivAt (fun y => stdNormalCDF (-calc_d2 y strike T sigma r q))
      (stdNormalPDF (-calc_d2 x strike T sigma r q) * -(1 / (x * (sigma * Real.sqrt T)))) x := by
    have h := HasDerivAt.comp_of_eq x (hasDerivAt_stdNormalCDF (-calc_d2 x strike T sigma r q)) hd2.neg rfl
    exact h
  have hterm1 : HasDerivAt
      (fun y => strike * Real.exp (-r * T) * stdNormalCDF (-calc_d2 y strike T sigma r q))
      (strike * Real.exp (-r * T) * (stdNormalPDF (-calc_d2 x strike T sigma r q) *
        -(1 / (x * (sigma * Real.sqrt T))))) x :=
    hΦn2.const_mul (strike * Real.exp (-r * T))
  have hterm2 : HasDerivAt
      (fun y => y * Real.exp (-q * T) * stdNormalCDF (-calc_d1 y strike T sigma r q))
      (1 * Real.exp (-q * T) * stdNormalCDF (-calc_d1 x strike T sigma r q) +
        x * Real.exp (-q * T) * (stdNormalPDF (-calc_d1 x strike T sigma r q) *
          -(1 / (x * (sigma * Real.sqrt T))))) x :=
    ((hasDerivAt_id x).mul_const (Real.exp (-q * T))).mul hΦn1
  have hsub := hterm1.sub hterm2
  have hpd := pdf_factor x strike T sigma r q hx hK hT hsig
  have hval : strike * Real.exp (-r * T) * (stdNormalPDF (-calc_d2 x strike T sigma r q) *
      -(1 / (x * (sigma * Real.sqrt T)))) -
      (1 * Real.exp (-q * T) * stdNormalCDF (-calc_d1 x strike T sigma r q) +
        x * Real.exp (-q * T) * (stdNormalPDF (-calc_d1 x strike T sigma r q) *
          -(1 / (x * (sigma * Real.sqrt T))))) =
      -(Real.exp (-q * T) * stdNormalCDF (-calc_d1 x strike T sigma r q)) := by
    rw [stdNormalPDF_even, stdNormalPDF_even]
    linear_combination (1 / (x * (sigma * Real.sqrt T))) * hpd
  rw [hval] at hsub
  have hput : (("put" : String) = "call") = False := eq_false (by decide)
  have hfeq : (fun y => calculate_option_price "put" y strike T sigma r q) =
      fun y => strike * Real.exp (-r * T) * stdNormalCDF (-calc_d2 y strike T sigma r q) -
        y * Real.exp (-q * T) * stdNormalCDF (-calc_d1 y strike T sigma r q) := by
    funext y
    simp [calculate_option_price, hT.not_le, hput]
  rw [hfeq]
  exact hsub

/-- C7: holding the other inputs fixed (positive strike and volatility), the
call price is non-decreasing and the put price is non-increasing as a function
of spot over positive spots, whatever the time to expiry. -/
theorem price_monotone_in_spot (strike T sigma r q : ℝ) (hK : 0 < strike) (hsig : 0 < sigma) :
    (∀ s1 s2 : ℝ, 0 < s1 → s1 ≤ s2 →
        calculate_option_price "call" s1 strike T sigma r q ≤
          calculate_option_price "call" s2 strike T sigma r q) ∧
      (∀ s1 s2 : ℝ, 0 < s1 → s1 ≤ s2 →
        calculate_option_price "put" s2 strike T sigma r q ≤
          calculate_option_price "put" s1 strike T sigma r q) := by
  by_cases hT : T ≤ 0
  · have hput : (("put" : String) = "call") = False := eq_false (by decide)
    refine ⟨fun s1 s2 h1 h12 => ?_, fun s1 s2 h1 h12 => ?_⟩
    · simp only [calculate_option_price, if_pos hT, if_pos rfl]
      exact max_le_max le_rfl (by linarith)
    · simp only [calculate_option_price, if_pos hT, hput, if_false]
      exact max_le_max le_rfl (by linarith)
  · push_neg at hT
    have hcont_call : ContinuousOn
        (fun y => calculate_option_price "call" y strike T sigma r q) (Ioi 0) :=
      fun y hy => ((hasDerivAt_call_price strike T sigma r q y hK hT hsig
        (mem_Ioi.mp hy)).continuousAt).continuousWithinAt
    have hderiv_call : ∀ y ∈ interior (Ioi (0 : ℝ)),
        HasDerivWithinAt (fun z => calculate_option_price "call" z strike T sigma r q)
          (Real.exp (-q * T) * stdNormalCDF (calc_d1 y strike T sigma r q))
          (interior (Ioi (0 : ℝ))) y := by
      intro y hy
      rw [interior_Ioi] at hy
      exact (hasDerivAt_call_price strike T sigma r q y hK hT hsig
        (mem_Ioi.mp hy)).hasDerivWithinAt
    have hnonneg_call : ∀ y ∈ interior (Ioi (0 : ℝ)),
        0 ≤ Real.exp (-q * T) * stdNormalCDF (calc_d1 y strike T sigma r q) :=
      fun y _ => mul_nonneg (Real.exp_pos _).le (stdNormalCDF_nonneg _)
    have hmono : MonotoneOn
        (fun y => calculate_option_price "call" y strike T sigma r q) (Ioi 0) :=
      monotoneOn_of_hasDerivWithinAt_nonneg (convex_Ioi 0) hcont_call hderiv_call hnonneg_call
    have hcont_put : ContinuousOn
        (fun y => calculate_option_price "put" y strike T sigma r q) (Ioi 0) :=
      fun y hy => ((hasDerivAt_put_price strike T sigma r q y hK hT hsig
        (mem_Ioi.mp hy)).continuousAt).continuousWithinAt
    have hderiv_put : ∀ y ∈ interior (Ioi (0 : ℝ)),
        HasDerivWithinAt (fun z => calculate_option_price "put" z strike T sigma r q)
          (-(Real.exp (-q * T) * stdNormalCDF (-calc_d1 y strike T sigma r q)))
          (interior (Ioi (0 : ℝ))) y := by
      intro y hy
      rw [interior_Ioi] at hy
      exact (hasDerivAt_put_price strike T sigma r q y hK hT hsig
        (mem_Ioi.mp hy)).hasDerivWithinAt
    have hnonpos_put : ∀ y ∈ interior (Ioi (0 : ℝ)),
        -(Real.exp (-q * T) * stdNormalCDF (-calc_d1 y strike T sigma r q)) ≤ 0 :=
      fun y _ => neg_nonpos.mpr (mul_nonneg (Real.exp_pos _).le (stdNormalCDF_nonneg _))
    have hanti : AntitoneOn
        (fun y => calculate_option_price "put" y strike T sigma r q) (Ioi 0) :=
      antitoneOn_of_hasDerivWithinAt_nonpos (convex_Ioi 0) hcont_put hderiv_put hnonpos_put
    exact ⟨fun s1 s2 h1 h12 =>
        hmono (mem_Ioi.mpr h1) (mem_Ioi.mpr (lt_of_lt_of_le h1 h12)) h12,
      fun s1 s2 h1 h12 =>
        hanti (mem_Ioi.mpr h1) (mem_Ioi.mpr (lt_of_lt_of_le h1 h12)) h12⟩

/-- Witness for C7 at strike = 1, T = 1, sigma = 1, r = 0, q = 0, comparing
the prices at spots 1 and 2. -/
theorem price_monotone_in_spot_witness :
    calculate_option_price "call" 1 1 1 1 0 0 ≤ calculate_option_price "call" 2 1 1 1 0 0 ∧
      calculate_option_price "put" 2 1 1 1 0 0 ≤ calculate_option_price "put" 1 1 1 1 0 0 :=
  ⟨(price_monotone_in_spot 1 1 1 0 0 one_pos one_pos).1 1 2 one_pos one_le_two,
    (price_monotone_in_spot 1 1 1 0 0 one_pos one_pos).2 1 2 one_pos one_le_two⟩
